import Mathlib

/-
Verification of the desired-state diff engine and approval-gated enforcement
decision of the orchestrator.

Embedded source files:
  src/orchestrator/utils/jsonpatcher.py  (functions _path, _diff, make_patch)
  src/orchestrator/app.py                (endpoint zpa_enforce and its counters)
  src/orchestrator/connectors/jira.py    (method JiraConnector.get_issue)

Modelling conventions:
  - JSON-representable tree values (the output of r.json() and the request
    bodies) are modelled by the mutual inductive type JSON below.  Numeric
    scalars are modelled as integers; the Python distinction between int and
    float scalars, and float semantics, are not needed by any claim and are
    not modelled.  Mappings are modelled as entry lists in enumeration
    order; a genuine Python dict always has unique keys, captured by the
    well-formedness predicate wfJ.
  - The network interaction of JiraConnector.get_issue is modelled by the
    type HttpResult: either the HTTP client raised (timeouts, transport and
    connection errors), or a response arrived, carrying its status code, the
    outcome of r.json() (some parsed value, or none when the body is not
    JSON and json() raises), and the raw text used by the fallback branch.
  - Raised Python exceptions are modelled by Except.error; process-wide
    Prometheus counters are modelled by the per-call increment deltas that a
    single invocation applies to them.
-/

set_option autoImplicit false
set_option linter.unusedVariables false

namespace AtsVerify

mutual
/-- Tree value: exactly the JSON-representable Python values the differ and
the gate operate on (None, bool, number, str, list, dict). -/
inductive JSON where
  | null
  | bool (b : Bool)
  | num (n : Int)
  | str (s : String)
  | arr (elems : JArr)
  | obj (entries : JObj)
  deriving DecidableEq
/-- Sequence of tree values (a Python list). -/
inductive JArr where
  | nil
  | cons (hd : JSON) (tl : JArr)
  deriving DecidableEq
/-- Mapping entries in enumeration order (a Python dict; keys of a real dict
are unique). -/
inductive JObj where
  | nil
  | cons (key : String) (val : JSON) (tl : JObj)
  deriving DecidableEq
end

/-- Conversion sugar used to write mapping literals in theorems. -/
def JObj.ofList : List (String × JSON) → JObj
  | [] => .nil
  | kv :: t => .cons kv.1 kv.2 (JObj.ofList t)

/-- Conversion sugar used to write sequence literals in theorems. -/
def JArr.ofList : List JSON → JArr
  | [] => .nil
  | x :: t => .cons x (JArr.ofList t)

/-- Mapping literal as a JSON value. -/
def objOf (l : List (String × JSON)) : JSON := .obj (JObj.ofList l)

/-- Sequence literal as a JSON value. -/
def arrOf (l : List JSON) : JSON := .arr (JArr.ofList l)

/-- Entry list of a mapping, for stating specifications. -/
def JObj.toList : JObj → List (String × JSON)
  | .nil => []
  | .cons k v t => (k, v) :: JObj.toList t

/-- Element list of a sequence, for stating specifications. -/
def JArr.toList : JArr → List JSON
  | .nil => []
  | .cons x t => x :: JArr.toList t

/-- Structural kind of a value; models the Python type() tag compared by
the check type(old) != type(new) in _diff (dict, list, str, int, bool and
NoneType are pairwise distinct types in Python). -/
def kindTag : JSON → Nat
  | .null => 0
  | .bool _ => 1
  | .num _ => 2
  | .str _ => 3
  | .arr _ => 4
  | .obj _ => 5

/-- Key lookup in a mapping, models old[k] and the membership test
k in old of the Python dict (first matching entry; a real dict has at most
one). -/
def lookupO : JObj → String → Option JSON
  | .nil, _ => none
  | .cons k v t, key => if k = key then some v else lookupO t key

/-- Membership of a key in a mapping, models k in d. -/
def keyMemO (os : JObj) (k : String) : Bool := (lookupO os k).isSome

/-- Keys of old absent from new, models old.keys() - new.keys() in _diff.
CPython iterates the resulting set in an unspecified hash-dependent order;
the embedding, being a function, must fix some concrete order and uses the
enumeration order of old.  No claim theorem depends on which order was
fixed: each uses this list only through order-insensitive consequences
(emptiness, membership, or its content up to permutation). -/
def keysDiff : JObj → JObj → List String
  | .nil, _ => []
  | .cons k _ t, ns => if keyMemO ns k then keysDiff t ns else k :: keysDiff t ns

/-- Escaping of one path segment, models the expression
str(key).replace("~","~0").replace("/","~1") in _path.  Both patterns are
single characters and neither replacement reintroduces a later pattern, so
the two sequential scans equal this single character-wise pass. -/
def escSeg (k : String) : String :=
  String.mk (k.data.flatMap (fun c =>
    if c = '~' then ['~', '0'] else if c = '/' then ['~', '1'] else [c]))

/-- Path built by _path(parent, key): the final segment is escaped, the
parent segments are joined as they are, and the path collapses to "/" when
parent is empty and the key is the empty string. -/
def pathOf (parent : List String) (key : String) : String :=
  if parent ≠ [] ∨ key ≠ "" then "/" ++ String.intercalate "/" (parent ++ [escSeg key]) else "/"

/-- Path used by the replace branches of _diff: the expression
"/" + "/".join(parent), which is also the value of the conditional
expression "/" if not parent else "/" + "/".join(parent), since joining the
empty list yields the empty string.  No segment is escaped here. -/
def joinPath (parent : List String) : String :=
  "/" ++ String.intercalate "/" parent

/-- Patch operation, the dict {op, path, value} appended by _diff;
remove carries no value. -/
inductive Op where
  | add (path : String) (value : JSON)
  | remove (path : String)
  | replace (path : String) (value : JSON)
  deriving DecidableEq

mutual
/-- Embedding of _diff from src/orchestrator/utils/jsonpatcher.py.  The
accumulating patch parameter of the Python function is rendered by
returning the list of operations appended by the call, in append order. -/
def _diff (old new : JSON) (parent : List String) : List Op :=
  if kindTag old ≠ kindTag new then
    [Op.replace (joinPath parent) new]
  else
    match old, new with
    | .obj os, .obj ns =>
        (keysDiff os ns).map (fun k => Op.remove (pathOf parent k)) ++ diffEntries os ns parent
    | .arr xs, .arr ys =>
        if xs ≠ ys then [Op.replace (joinPath parent) (.arr ys)] else []
    | _, _ =>
        if old ≠ new then [Op.replace (joinPath parent) new] else []
/-- Loop for k in new.keys() of _diff: emit an add for a key absent from
old, otherwise recurse on old[k] and new[k] with the extended path.  Since
the keys of a real dict are unique, new[k] is the value of the entry being
visited. -/
def diffEntries (os : JObj) (ns : JObj) (parent : List String) : List Op :=
  match ns with
  | .nil => []
  | .cons k v t =>
      (match lookupO os k with
       | none => [Op.add (pathOf parent k) v]
       | some u => _diff u v (parent ++ [k]))
      ++ diffEntries os t parent
end

/-- Embedding of make_patch(current, desired): _diff with empty path and
empty accumulator. -/
def make_patch (current desired : JSON) : List Op := _diff current desired []

/-- Uniqueness of the keys of one mapping node. -/
def nodupKeysO : JObj → Bool
  | .nil => true
  | .cons k _ t => !keyMemO t k && nodupKeysO t

mutual
/-- Well-formedness: every mapping anywhere in the tree has unique keys.
Every value produced by the Python runtime (dicts cannot hold a key twice)
satisfies this. -/
def wfJ : JSON → Bool
  | .null => true
  | .bool _ => true
  | .num _ => true
  | .str _ => true
  | .arr xs => wfA xs
  | .obj os => nodupKeysO os && wfO os
/-- Well-formedness of every element of a sequence. -/
def wfA : JArr → Bool
  | .nil => true
  | .cons x t => wfJ x && wfA t
/-- Well-formedness of every value of a mapping. -/
def wfO : JObj → Bool
  | .nil => true
  | .cons _ v t => wfJ v && wfO t
end

/-- Lexicographic comparison of character lists by code point, used to fix
a canonical key order. -/
def charListLe : List Char → List Char → Bool
  | [], _ => true
  | _ :: _, [] => false
  | a :: as, b :: bs =>
      if a.toNat < b.toNat then true
      else if b.toNat < a.toNat then false
      else charListLe as bs

/-- Total lexicographic order on strings for the canonical form. -/
def strLe (a b : String) : Bool := charListLe a.data b.data

/-- Insertion of an entry into a key-sorted entry list, for the canonical
form below. -/
def insertEntryByKey (k : String) (v : JSON) : JObj → JObj
  | .nil => .cons k v .nil
  | .cons k2 v2 t =>
      if strLe k k2 then .cons k v (.cons k2 v2 t) else .cons k2 v2 (insertEntryByKey k v t)

mutual
/-- Canonical form of a tree: mapping entries sorted by key at every level,
sequences kept in order.  Two trees are equal as trees (mappings compared
as finite maps, sequences element-wise) exactly when their canonical forms
coincide. -/
def canon : JSON → JSON
  | .null => .null
  | .bool b => .bool b
  | .num n => .num n
  | .str s => .str s
  | .arr xs => .arr (canonA xs)
  | .obj os => .obj (canonO os)
/-- Canonical form of each element of a sequence. -/
def canonA : JArr → JArr
  | .nil => .nil
  | .cons x t => .cons (canon x) (canonA t)
/-- Canonical, key-sorted form of a mapping. -/
def canonO : JObj → JObj
  | .nil => .nil
  | .cons k v t => insertEntryByKey k (canon v) (canonO t)
end

/-- Equality of trees as trees: mappings compared as finite maps regardless
of enumeration order, sequences compared element-wise. -/
def treeEquiv (a b : JSON) : Prop := canon a = canon b

instance (a b : JSON) : Decidable (treeEquiv a b) :=
  inferInstanceAs (Decidable (canon a = canon b))

/- ------------------------------------------------------------------ -/
/- Policy State Gate: zpa_enforce from src/orchestrator/app.py and the
   approval lookup JiraConnector.get_issue from
   src/orchestrator/connectors/jira.py. -/

/-- Outcome of one HTTP response inside get_issue: the status code of r,
the outcome of r.json() (none when the body is not valid JSON and json()
raises), and r.text, used only by the fallback branch. -/
structure HttpResponse where
  status_code : Int
  jsonBody : Option JSON
  text : String
  deriving DecidableEq

/-- Outcome of the await self.session.get(...) call in get_issue: either
the HTTP client raised (timeout, connection failure, any transport error),
or a response arrived. -/
inductive HttpResult where
  | exn (msg : String)
  | resp (r : HttpResponse)
  deriving DecidableEq

/-- Value of the local variable data in get_issue: the parsed body when
r.json() succeeds, otherwise the fallback dict
with keys status_code and text. -/
def dataOf (r : HttpResponse) : JSON :=
  match r.jsonBody with
  | some j => j
  | none => objOf [("status_code", .num r.status_code), ("text", .str r.text)]

/-- Return value of get_issue on a completed response: the dict
with keys status_code and data. -/
def issueOf (r : HttpResponse) : JSON :=
  objOf [("status_code", .num r.status_code), ("data", dataOf r)]

/-- Embedding of JiraConnector.get_issue.  Only the r.json() call sits in a
try/except; an exception raised by session.get itself (timeout, transport
error) escapes get_issue, modelled by Except.error. -/
def get_issue : HttpResult → Except String JSON
  | .exn m => .error m
  | .resp r => .ok (issueOf r)

/-- Python d.get(key, default): the stored value when the key is present
(even when that value is None), the default when absent; calling .get on a
value that is not a dict raises AttributeError, modelled by Except.error. -/
def dget (x : JSON) (k : String) (dflt : JSON) : Except String JSON :=
  match x with
  | .obj kvs => .ok ((lookupO kvs k).getD dflt)
  | _ => .error "AttributeError"

/-- Embedding of the status extraction in zpa_enforce:
ji.get("data",\x7b\x7d).get("fields",\x7b\x7d).get("status",\x7b\x7d).get("name","").
Any step applied to a non-dict raises. -/
def statusNameOf (ji : JSON) : Except String JSON :=
  match dget ji "data" (objOf []) with
  | .error e => .error e
  | .ok d =>
    match dget d "fields" (objOf []) with
    | .error e => .error e
    | .ok f =>
      match dget f "status" (objOf []) with
      | .error e => .error e
      | .ok s => dget s "name" (.str "")

/-- Python membership status_name in allow_statuses over a list of strings:
equality with some element; values of a different type equal no string. -/
def inAllow (v : JSON) (allow : List String) : Bool :=
  allow.any (fun s => v == JSON.str s)

/-- Single-quote character as a string, written without a quote literal. -/
def sq : String := String.singleton (Char.ofNat 39)

/-- Python str.lower(), character-wise (the flag values compared by the
gate are ASCII; the full Unicode lowering of Python is not needed). -/
def pyLower (s : String) : String := String.mk (s.data.map Char.toLower)

mutual
/-- Python repr of a value, as interpolated for non-string scalars and
containers; quote escaping inside string payloads is not modelled (no
claim depends on it). -/
def pyRepr : JSON → String
  | .null => "None"
  | .bool b => if b then "True" else "False"
  | .num n => toString n
  | .str s => sq ++ s ++ sq
  | .arr xs => "[" ++ pyReprA xs ++ "]"
  | .obj os => "\x7b" ++ pyReprO os ++ "\x7d"
/-- Comma-separated repr of sequence elements. -/
def pyReprA : JArr → String
  | .nil => ""
  | .cons x .nil => pyRepr x
  | .cons x t => pyRepr x ++ ", " ++ pyReprA t
/-- Comma-separated repr of mapping entries. -/
def pyReprO : JObj → String
  | .nil => ""
  | .cons k v .nil => sq ++ k ++ sq ++ ": " ++ pyRepr v
  | .cons k v t => sq ++ k ++ sq ++ ": " ++ pyRepr v ++ ", " ++ pyReprO t
end

/-- Python str(x) as interpolated by the f-string building the blocked
reason: the bare content for a string, repr otherwise. -/
def pyStrJ : JSON → String
  | .str s => s
  | v => pyRepr v

/-- Python repr of a list of strings, as interpolated for allow_statuses
in the blocked reason. -/
def pyListRepr (xs : List String) : String :=
  "[" ++ String.intercalate ", " (xs.map (fun s => sq ++ s ++ sq)) ++ "]"

/-- Decision dict returned by zpa_enforce: either blocked with a reason, or
accepted with applied_ops = len(patch) (the accepted dict also carries a
constant note field, irrelevant to every claim). -/
inductive Decision where
  | blocked (reason : String)
  | accepted (applied_ops : Nat)
  deriving DecidableEq

/-- Per-call increments applied to the three Prometheus counters
ZPA_ENFORCE_ATTEMPTS, ZPA_ENFORCE_APPLIED and ZPA_ENFORCE_BLOCKED. -/
structure Counters where
  attempts : Nat
  applied : Nat
  blocked : Nat
  deriving DecidableEq

/-- Embedding of the endpoint zpa_enforce from src/orchestrator/app.py.
Inputs: the patch, the Jira issue key (only used to address the lookup),
the caller-supplied allowlist, the value of the environment variable
ZPA_ENABLE_ENFORCE (none when unset), and the outcome of the HTTP
interaction performed by the single jira.get_issue call.  Output: the
counter increments performed by the call, and either the returned decision
or the propagated exception. -/
def zpa_enforce (patch : List Op) (jira_issue_key : String) (allow_statuses : List String)
    (env : Option String) (http : HttpResult) : Counters × Except String Decision :=
  -- ZPA_ENFORCE_ATTEMPTS.inc() happens first, on every invocation.
  if (pyLower (env.getD "false") == "true") = false then
    (⟨1, 0, 1⟩, .ok (.blocked "ZPA enforcement disabled (set ZPA_ENABLE_ENFORCE=true)"))
  else
    match get_issue http with
    | .error e => (⟨1, 0, 0⟩, .error e)
    | .ok ji =>
      match statusNameOf ji with
      | .error e => (⟨1, 0, 0⟩, .error e)
      | .ok status_name =>
        if inAllow status_name allow_statuses = false then
          (⟨1, 0, 1⟩, .ok (.blocked
            ("JIRA status " ++ sq ++ pyStrJ status_name ++ sq
              ++ " not in allowlist " ++ pyListRepr allow_statuses)))
        else
          (⟨1, 1, 0⟩, .ok (.accepted patch.length))

/- ------------------------------------------------------------------ -/
/- Helper lemmas shared by the claim theorems. -/

theorem inAllow_str_iff (s : String) (allow : List String) :
    inAllow (.str s) allow = true ↔ s ∈ allow := by
  simp [inAllow, List.any_eq_true, beq_iff_eq]

/-- Behaviour of the gate when the lookup completes and the status
extraction yields the string s: decide by exact membership of s in the
allowlist. -/
theorem zpa_enforce_with_status (patch : List Op) (key : String) (allow : List String)
    (env : Option String) (r : HttpResponse) (s : String)
    (h1 : (pyLower (env.getD "false") == "true") = true)
    (h2 : statusNameOf (issueOf r) = .ok (.str s)) :
    zpa_enforce patch key allow env (.resp r) =
      if s ∈ allow then (⟨1, 1, 0⟩, .ok (.accepted patch.length))
      else (⟨1, 0, 1⟩, .ok (.blocked
        ("JIRA status " ++ sq ++ s ++ sq ++ " not in allowlist " ++ pyListRepr allow))) := by
  unfold zpa_enforce
  rw [h1]
  simp only [Bool.true_eq_false, if_false, get_issue, h2]
  by_cases hmem : s ∈ allow
  · have : inAllow (.str s) allow = true := (inAllow_str_iff s allow).mpr hmem
    rw [this]
    simp [hmem]
  · have : inAllow (.str s) allow = false := by
      cases hb : inAllow (.str s) allow
      · rfl
      · exact absurd ((inAllow_str_iff s allow).mp hb) hmem
    rw [this]
    simp [hmem, pyStrJ]

/- ------------------------------------------------------------------ -/
/- Claim theorems. -/

/-- Claim C1 (code bug): the claim states that every approval-lookup
failure, timeouts and transport errors included, is converted into a
blocked decision and that no exception ever reaches the caller.  The code
only guards the r.json() call; an exception raised by the HTTP client
itself escapes zpa_enforce.  This theorem evaluates the embedded code at
such a failing input: enforcement enabled, lookup raising a read timeout;
the call propagates the exception instead of returning a blocked decision
(and increments no decision counter). -/
theorem C1_lookup_exception_escapes_gate :
    zpa_enforce [] "TICK-1" ["Approved", "Ready for Change"] (some "true")
      (.exn "httpx.ReadTimeout") = (⟨1, 0, 0⟩, .error "httpx.ReadTimeout") := rfl

/-- Claim C2 (confirmed): with the enforcement flag anything but true
(case-insensitively), and in particular when unset, the gate blocks with
the fixed reason containing the phrase about enforcement being disabled,
without consulting the lookup outcome and whatever the allowlist holds;
and the flag defaults to disabled when the variable is unset. -/
theorem C2_disabled_flag_blocks_without_lookup :
    (∀ (patch : List Op) (key : String) (allow : List String) (env : Option String)
        (http : HttpResult),
        (pyLower (env.getD "false") == "true") = false →
        zpa_enforce patch key allow env http =
          (⟨1, 0, 1⟩, .ok (.blocked "ZPA enforcement disabled (set ZPA_ENABLE_ENFORCE=true)")))
    ∧ (∃ pre post,
        "ZPA enforcement disabled (set ZPA_ENABLE_ENFORCE=true)" =
          pre ++ "enforcement disabled" ++ post)
    ∧ (pyLower ((none : Option String).getD "false") == "true") = false := by
  refine ⟨?_, ⟨"ZPA ", " (set ZPA_ENABLE_ENFORCE=true)", rfl⟩, rfl⟩
  intro patch key allow env http h
  unfold zpa_enforce
  rw [h]
  simp

/-- Witness for C2: flag unset (environment variable absent), lookup would
have returned the allowed status Approved, allowlist contains it; the gate
still blocks with the disabled-enforcement reason. -/
theorem C2_disabled_flag_blocks_without_lookup_witness :
    zpa_enforce [] "TICK-2" ["Approved"] none
      (.resp ⟨200, some (objOf [("fields", objOf [("status", objOf [("name", .str "Approved")])])]), ""⟩) =
      (⟨1, 0, 1⟩, .ok (.blocked "ZPA enforcement disabled (set ZPA_ENABLE_ENFORCE=true)")) :=
  C2_disabled_flag_blocks_without_lookup.1 [] "TICK-2" ["Approved"] none
    (.resp ⟨200, some (objOf [("fields", objOf [("status", objOf [("name", .str "Approved")])])]), ""⟩)
    rfl

/-- Claim C3 (confirmed): with enforcement enabled and the lookup
completing with a status string s, the gate decides by exact string
membership of s in the allowlist (string equality, hence case-sensitive):
a non-member status blocks with a reason naming the observed status and
the rendered allowlist, a member status accepts with applied_ops equal to
the patch length. -/
theorem C3_exact_membership_decides :
    ∀ (patch : List Op) (key : String) (allow : List String) (env : Option String)
      (r : HttpResponse) (s : String),
      (pyLower (env.getD "false") == "true") = true →
      statusNameOf (issueOf r) = .ok (.str s) →
      zpa_enforce patch key allow env (.resp r) =
        if s ∈ allow then (⟨1, 1, 0⟩, .ok (.accepted patch.length))
        else (⟨1, 0, 1⟩, .ok (.blocked
          ("JIRA status " ++ sq ++ s ++ sq ++ " not in allowlist " ++ pyListRepr allow))) :=
  fun patch key allow env r s h1 h2 =>
    zpa_enforce_with_status patch key allow env r s h1 h2

/-- Witness for C3: a three-op patch with status Approved against allowlist
[Approved] is accepted with applied_ops 3; the same setup with status
approved (case mismatch) is blocked with a reason naming the status and
the allowlist. -/
theorem C3_exact_membership_decides_witness :
    zpa_enforce [Op.remove "/a", Op.remove "/b", Op.remove "/c"] "TICK-3" ["Approved"] (some "true")
      (.resp ⟨200, some (objOf [("fields", objOf [("status", objOf [("name", .str "Approved")])])]), ""⟩) =
      (⟨1, 1, 0⟩, .ok (.accepted 3))
    ∧ zpa_enforce [] "TICK-3" ["Approved"] (some "true")
      (.resp ⟨200, some (objOf [("fields", objOf [("status", objOf [("name", .str "approved")])])]), ""⟩) =
      (⟨1, 0, 1⟩, .ok (.blocked
        ("JIRA status " ++ sq ++ "approved" ++ sq ++ " not in allowlist " ++ pyListRepr ["Approved"]))) := by
  constructor
  · have h := C3_exact_membership_decides [Op.remove "/a", Op.remove "/b", Op.remove "/c"]
      "TICK-3" ["Approved"] (some "true")
      ⟨200, some (objOf [("fields", objOf [("status", objOf [("name", .str "Approved")])])]), ""⟩
      "Approved" rfl rfl
    simpa using h
  · have h := C3_exact_membership_decides [] "TICK-3" ["Approved"] (some "true")
      ⟨200, some (objOf [("fields", objOf [("status", objOf [("name", .str "approved")])])]), ""⟩
      "approved" rfl rfl
    simpa using h

/-- Claim C9 (code bug): the claim states that on every invocation the
attempts counter increments once and exactly one of the applied and
blocked counters increments once.  On an invocation whose lookup raises a
transport error, the code increments attempts and then propagates the
exception, incrementing neither decision counter; this theorem evaluates
the embedded code at such an input. -/
theorem C9_counters_not_exhaustive_on_lookup_exception :
    (zpa_enforce [Op.remove "/seg"] "TICK-4" ["Approved"] (some "true")
        (.exn "httpx.ConnectError")).1 = ⟨1, 0, 0⟩
    ∧ (zpa_enforce [Op.remove "/seg"] "TICK-4" ["Approved"] (some "true")
        (.exn "httpx.ConnectError")).2 = .error "httpx.ConnectError" :=
  ⟨rfl, rfl⟩

/-- Predicate on a parsed response body: the body is a dict and the chained
defaulting getters of zpa_enforce find no status name in it, because the
fields key is absent, or fields is a dict without a status key, or status
is a dict without a name key.  This is the shape of a Jira error body and
of an issue payload lacking status fields. -/
def noStatusName (body : JSON) : Prop :=
  ∃ bs, body = .obj bs ∧
    (lookupO bs "fields" = none ∨
     ∃ fs, lookupO bs "fields" = some (.obj fs) ∧
       (lookupO fs "status" = none ∨
        ∃ ss, lookupO fs "status" = some (.obj ss) ∧ lookupO ss "name" = none))

/-- On a body without a status name, the defaulting getter chain of
zpa_enforce evaluates to the empty string. -/
theorem statusNameOf_of_noStatusName (r : HttpResponse) (body : JSON)
    (hb : r.jsonBody = some body) (hn : noStatusName body) :
    statusNameOf (issueOf r) = .ok (.str "") := by
  obtain ⟨bs, hbody, hrest⟩ := hn
  have hdata : dataOf r = body := by simp [dataOf, hb]
  rcases hrest with hf | ⟨fs, hf, hrest⟩
  · simp [statusNameOf, issueOf, objOf, JObj.ofList, dget, hdata, hbody, lookupO, hf]
  · rcases hrest with hs | ⟨ss, hs, hname⟩
    · simp [statusNameOf, issueOf, objOf, JObj.ofList, dget, hdata, hbody, lookupO, hf, hs]
    · simp [statusNameOf, issueOf, objOf, JObj.ofList, dget, hdata, hbody, lookupO, hf, hs, hname]

/-- Claim C10 (confirmed): with enforcement enabled, a lookup completing
with a JSON dict body that carries no status name (a Jira error body, or
an issue without status fields) makes the gate treat the observed status
as the empty string: blocked when the empty string is not in the
allowlist, accepted with applied_ops equal to the patch length when the
caller-supplied allowlist contains the empty string. -/
theorem C10_missing_status_is_empty_string :
    ∀ (patch : List Op) (key : String) (allow : List String) (env : Option String)
      (r : HttpResponse) (body : JSON),
      (pyLower (env.getD "false") == "true") = true →
      r.jsonBody = some body →
      noStatusName body →
      zpa_enforce patch key allow env (.resp r) =
        if "" ∈ allow then (⟨1, 1, 0⟩, .ok (.accepted patch.length))
        else (⟨1, 0, 1⟩, .ok (.blocked
          ("JIRA status " ++ sq ++ "" ++ sq ++ " not in allowlist " ++ pyListRepr allow))) := by
  intro patch key allow env r body h1 hb hn
  exact zpa_enforce_with_status patch key allow env r "" h1
    (statusNameOf_of_noStatusName r body hb hn)

/-- Witness for C10: a Jira error body (no fields key) with a two-op patch.
With allowlist [Approved] the gate blocks naming the empty status; with an
allowlist containing the empty string the gate accepts and applied_ops is
2. -/
theorem C10_missing_status_is_empty_string_witness :
    zpa_enforce [Op.remove "/x", Op.remove "/y"] "BAD-1" ["Approved"] (some "true")
      (.resp ⟨404, some (objOf [("errorMessages", arrOf [.str "Issue does not exist"])]), ""⟩) =
      (⟨1, 0, 1⟩, .ok (.blocked
        ("JIRA status " ++ sq ++ "" ++ sq ++ " not in allowlist " ++ pyListRepr ["Approved"])))
    ∧ zpa_enforce [Op.remove "/x", Op.remove "/y"] "BAD-1" [""] (some "true")
      (.resp ⟨404, some (objOf [("errorMessages", arrOf [.str "Issue does not exist"])]), ""⟩) =
      (⟨1, 1, 0⟩, .ok (.accepted 2)) := by
  constructor
  · have h := C10_missing_status_is_empty_string [Op.remove "/x", Op.remove "/y"] "BAD-1"
      ["Approved"] (some "true")
      ⟨404, some (objOf [("errorMessages", arrOf [.str "Issue does not exist"])]), ""⟩
      (objOf [("errorMessages", arrOf [.str "Issue does not exist"])])
      rfl rfl ⟨JObj.ofList [("errorMessages", arrOf [.str "Issue does not exist"])], rfl,
        Or.inl (by decide)⟩
    simpa using h
  · have h := C10_missing_status_is_empty_string [Op.remove "/x", Op.remove "/y"] "BAD-1"
      [""] (some "true")
      ⟨404, some (objOf [("errorMessages", arrOf [.str "Issue does not exist"])]), ""⟩
      (objOf [("errorMessages", arrOf [.str "Issue does not exist"])])
      rfl rfl ⟨JObj.ofList [("errorMessages", arrOf [.str "Issue does not exist"])], rfl,
        Or.inl (by decide)⟩
    simpa using h

/- ------------------------------------------------------------------ -/
/- Differ lemmas. -/

/-- Induction principle for mapping entry lists that descends only into
the tail, avoiding the multi-motive recursor of the mutual family. -/
def JObj.recTail {motive : JObj → Prop} (base : motive .nil)
    (step : ∀ k v t, motive t → motive (.cons k v t)) : ∀ t, motive t
  | .nil => base
  | .cons k v t => step k v t (JObj.recTail base step t)

/-- Unfolding of the mapping branch of _diff. -/
theorem diff_obj_unfold (os ns : JObj) (parent : List String) :
    _diff (.obj os) (.obj ns) parent =
      (keysDiff os ns).map (fun k => Op.remove (pathOf parent k)) ++ diffEntries os ns parent := by
  simp [_diff, kindTag]

theorem keyMemO_cons_self (k : String) (v : JSON) (t : JObj) :
    keyMemO (.cons k v t) k = true := by
  simp [keyMemO, lookupO]

theorem keyMemO_cons_of_tail (k0 k : String) (v : JSON) (t : JObj)
    (h : keyMemO t k = true) : keyMemO (.cons k0 v t) k = true := by
  by_cases hk : k0 = k
  · simp [keyMemO, lookupO, hk]
  · simp only [keyMemO, lookupO, hk, if_false]
    simpa [keyMemO] using h

theorem keyMemO_of_mem (t : JObj) (k : String) (v : JSON)
    (h : (k, v) ∈ t.toList) : keyMemO t k = true := by
  induction t using JObj.recTail with
  | base => simp [JObj.toList] at h
  | step k0 v0 t2 ih =>
      simp [JObj.toList] at h
      rcases h with ⟨hk, hv⟩ | h
      · subst hk; exact keyMemO_cons_self _ _ _
      · exact keyMemO_cons_of_tail _ _ _ _ (ih h)

theorem keyMemO_false_lookup (os : JObj) (k : String)
    (h : keyMemO os k = false) : lookupO os k = none := by
  unfold keyMemO at h
  cases hl : lookupO os k with
  | none => rfl
  | some u => rw [hl] at h; simp at h

theorem lookupO_of_mem_nodup (os : JObj) (k : String) (v : JSON)
    (hnd : nodupKeysO os = true) (h : (k, v) ∈ os.toList) :
    lookupO os k = some v := by
  induction os using JObj.recTail with
  | base => simp [JObj.toList] at h
  | step k0 v0 t ih =>
      have hnd2 : keyMemO t k0 = false ∧ nodupKeysO t = true := by
        simpa [nodupKeysO, Bool.and_eq_true] using hnd
      simp [JObj.toList] at h
      rcases h with ⟨hk, hv⟩ | h
      · subst hk; subst hv; simp [lookupO]
      · by_cases hk : k0 = k
        · subst hk
          have := keyMemO_of_mem t k0 v h
          rw [this] at hnd2
          simp at hnd2
        · simp [lookupO, hk]
          exact ih hnd2.2 h

theorem keysDiff_nil_of_sub (os : JObj) : ∀ (ns : JObj),
    (∀ k, keyMemO os k = true → keyMemO ns k = true) → keysDiff os ns = [] := by
  induction os using JObj.recTail with
  | base => intro ns h; simp [keysDiff]
  | step k v t ih =>
      intro ns h
      have hk : keyMemO ns k = true := h k (keyMemO_cons_self k v t)
      simp [keysDiff, hk]
      exact ih ns (fun k2 h2 => h k2 (keyMemO_cons_of_tail k k2 v t h2))

theorem mem_keysDiff (os : JObj) (k : String) : ∀ (ns : JObj),
    keyMemO os k = true → keyMemO ns k = false → k ∈ keysDiff os ns := by
  induction os using JObj.recTail with
  | base => intro ns h; simp [keyMemO, lookupO] at h
  | step k0 v t ih =>
      intro ns hmem habs
      by_cases hk : k0 = k
      · subst hk
        simp [keysDiff, habs]
      · have hmem2 : keyMemO t k = true := by
          simpa [keyMemO, lookupO, hk] using hmem
        have := ih ns hmem2 habs
        by_cases hk0 : keyMemO ns k0 = true
        · simpa [keysDiff, hk0] using this
        · simp at hk0
          simp [keysDiff, hk0]
          exact Or.inr this

/-- The add-or-recurse loop over the entries of the desired mapping,
written as a flat map over the entry list: the traversal follows the
enumeration order of the desired mapping. -/
theorem diffEntries_eq_flatMap (os : JObj) (parent : List String) : ∀ (ns : JObj),
    diffEntries os ns parent =
      ns.toList.flatMap (fun kv =>
        match lookupO os kv.1 with
        | none => [Op.add (pathOf parent kv.1) kv.2]
        | some u => _diff u kv.2 (parent ++ [kv.1])) := by
  intro ns
  induction ns using JObj.recTail with
  | base => simp [diffEntries, JObj.toList]
  | step k v t ih =>
      simp only [JObj.toList, List.flatMap_cons]
      rw [← ih]
      rfl

/-- The removal prefix, written as a filter over the key list of the
current mapping: the modelled traversal follows the enumeration order of
the current mapping. -/
theorem keysDiff_eq_filter : ∀ (os ns : JObj),
    keysDiff os ns = (os.toList.map Prod.fst).filter (fun k => !keyMemO ns k) := by
  intro os ns
  induction os using JObj.recTail with
  | base => simp [keysDiff, JObj.toList]
  | step k v t ih =>
      cases hk : keyMemO ns k <;>
        simp [keysDiff, hk, JObj.toList, List.filter, ih]

/- ------------------------------------------------------------------ -/
/- Differ claims. -/

/-- Claim C6 (confirmed): whenever both sides at a path are sequences that
are not element-wise equal, the differ emits exactly one replace operation
carrying the whole desired sequence at that path, and nothing else (in
particular no positional or element-level operation). -/
theorem C6_sequences_replaced_atomically :
    ∀ (parent : List String) (xs ys : JArr), xs ≠ ys →
      _diff (.arr xs) (.arr ys) parent = [Op.replace (joinPath parent) (.arr ys)] := by
  intro parent xs ys h
  simp [_diff, kindTag, h]

/-- Witness for C6: the sequences [1, 2] and [2, 1] under the key items
differ, and the patch for that subtree is the single whole-sequence
replace at /items. -/
theorem C6_sequences_replaced_atomically_witness :
    _diff (.arr (JArr.ofList [.num 1, .num 2])) (.arr (JArr.ofList [.num 2, .num 1])) ["items"] =
      [Op.replace "/items" (.arr (JArr.ofList [.num 2, .num 1]))] :=
  C6_sequences_replaced_atomically ["items"] (JArr.ofList [.num 1, .num 2])
    (JArr.ofList [.num 2, .num 1]) (by decide)

/-- Claim C7, counterexample: the claim states that in every emitted path
each key segment is escaped (tilde to ~0, slash to ~1).  For the mappings
with whose single key is the two-character string k-slash, the emitted
replace path is the unescaped /k/ and not the escaped /k~1: a slash inside
a key is confused with a path separator. -/
theorem C7_counterexample_unescaped_replace_path :
    make_patch (objOf [("k/", .num 1)]) (objOf [("k/", .num 2)]) = [.replace "/k/" (.num 2)]
    ∧ escSeg "k/" = "k~1"
    ∧ ("/k/" : String) ≠ "/" ++ "k~1" := by
  refine ⟨rfl, rfl, ?_⟩
  decide

/-- Claim C7 as amended (proved): only the final segment of the paths of
add and remove operations is escaped (tilde to ~0, slash to ~1); the
parent segments, and the whole path of replace operations, are joined with
slashes unescaped; the root path when no segments exist is the single
slash.  The concrete conjuncts exhibit each behaviour of the differ. -/
theorem C7_amended_final_segment_escaping :
    (∀ (parent : List String) (k : String), parent ≠ [] ∨ k ≠ "" →
      pathOf parent k = "/" ++ String.intercalate "/" (parent ++ [escSeg k]))
    ∧ (∀ parent, joinPath parent = "/" ++ String.intercalate "/" parent)
    ∧ joinPath [] = "/"
    ∧ make_patch (objOf []) (objOf [("k/", .num 1)]) = [.add "/k~1" (.num 1)]
    ∧ make_patch (objOf [("a~b", objOf [("x", .num 1)])])
        (objOf [("a~b", objOf [("x", .num 2)])]) = [.replace "/a~b/x" (.num 2)]
    ∧ make_patch (.num 1) (.num 2) = [.replace "/" (.num 2)] := by
  refine ⟨?_, fun parent => rfl, rfl, rfl, rfl, rfl⟩
  intro parent k h
  simp [pathOf, h]

/-- Witness for C7 as amended: the path for the add or remove of key x/y
below parent segment p is built from the escaped final segment. -/
theorem C7_amended_final_segment_escaping_witness :
    pathOf ["p"] "x/y" = "/" ++ String.intercalate "/" (["p"] ++ [escSeg "x/y"]) :=
  C7_amended_final_segment_escaping.1 ["p"] "x/y" (Or.inl (by decide))

/-- Claim C4, counterexample: the claim states that mapping-key traversal
uses a fixed order independent of the native enumeration order of the
container, so that diff over equal trees always yields identical patches.
The two desired mappings below are equal as trees (same key-value pairs,
different enumeration orders), yet diffing them against the same empty
current mapping produces differently ordered patches. -/
theorem C4_counterexample_order_dependent :
    treeEquiv (objOf [("a", .num 1), ("b", .num 2)]) (objOf [("b", .num 2), ("a", .num 1)])
    ∧ make_patch (objOf []) (objOf [("a", .num 1), ("b", .num 2)]) ≠
        make_patch (objOf []) (objOf [("b", .num 2), ("a", .num 1)]) := by
  constructor
  · decide
  · decide

/-- Claim C4 as amended (proved): the differ does not traverse mapping
keys in a fixed container-independent order.  The patch for two mappings
is some ordering of the removals of the keys present only in current (the
set difference is iterated in an order the program leaves unspecified,
rendered here by an existentially quantified permutation of those keys),
followed by the additions and recursive descents in the native entry
enumeration order of the desired mapping.  Diffs over extensionally equal
mappings enumerated in different orders may therefore produce differently
ordered patches. -/
theorem C4_amended_desired_order_and_unordered_removals :
    ∀ (parent : List String) (os ns : JObj),
      ∃ rs : List String,
        rs.Perm ((os.toList.map Prod.fst).filter (fun k => !keyMemO ns k))
        ∧ _diff (.obj os) (.obj ns) parent =
            rs.map (fun k => Op.remove (pathOf parent k))
              ++ ns.toList.flatMap (fun kv =>
                  match lookupO os kv.1 with
                  | none => [Op.add (pathOf parent kv.1) kv.2]
                  | some u => _diff u kv.2 (parent ++ [kv.1])) := by
  intro parent os ns
  refine ⟨keysDiff os ns, ?_, ?_⟩
  · rw [keysDiff_eq_filter]
  · rw [diff_obj_unfold, diffEntries_eq_flatMap]

mutual
/-- Diffing any well-formed tree against itself appends nothing, at any
path. -/
theorem diff_self_eq_nil : ∀ (x : JSON) (parent : List String),
    wfJ x = true → _diff x x parent = []
  | .null, parent, hw => by simp [_diff]
  | .bool b, parent, hw => by simp [_diff]
  | .num n, parent, hw => by simp [_diff]
  | .str s, parent, hw => by simp [_diff]
  | .arr xs, parent, hw => by simp [_diff]
  | .obj os, parent, hw => by
      have hsplit : nodupKeysO os = true ∧ wfO os = true := by
        simpa [wfJ, Bool.and_eq_true] using hw
      rw [diff_obj_unfold]
      rw [keysDiff_nil_of_sub os os (fun k h => h)]
      rw [diffEntries_self_eq_nil os os parent hsplit.2
        (fun k v hm => lookupO_of_mem_nodup os k v hsplit.1 hm)]
      simp
/-- The entry loop appends nothing when every visited entry is found
unchanged in the other mapping. -/
theorem diffEntries_self_eq_nil : ∀ (t : JObj) (os : JObj) (parent : List String),
    wfO t = true → (∀ k v, (k, v) ∈ t.toList → lookupO os k = some v) →
    diffEntries os t parent = []
  | .nil, os, parent, hw, hsub => by simp [diffEntries]
  | .cons k v t2, os, parent, hw, hsub => by
      have hv : wfJ v = true ∧ wfO t2 = true := by
        simpa [wfO, Bool.and_eq_true] using hw
      have hl : lookupO os k = some v := hsub k v (by simp [JObj.toList])
      simp only [diffEntries, hl]
      rw [diff_self_eq_nil v (parent ++ [k]) hv.1]
      rw [diffEntries_self_eq_nil t2 os parent hv.2
        (fun k2 v2 hm => hsub k2 v2 (by simp [JObj.toList, hm]))]
      simp
end

/-- Claim C5 (confirmed): for every tree X (mappings with unique keys, as
every Python dict has), diffing X against itself yields the empty patch. -/
theorem C5_diff_idempotent : ∀ (X : JSON), wfJ X = true → make_patch X X = [] :=
  fun X h => diff_self_eq_nil X [] h

/-- Witness for C5: a tree mixing scalars, a nested sequence, a nested
mapping and null diffs against itself to the empty patch. -/
theorem C5_diff_idempotent_witness :
    wfJ (objOf [("a", .num 1), ("b", arrOf [.num 1, objOf [("c", .str "s")]]), ("d", .null)]) = true
    ∧ make_patch (objOf [("a", .num 1), ("b", arrOf [.num 1, objOf [("c", .str "s")]]), ("d", .null)])
        (objOf [("a", .num 1), ("b", arrOf [.num 1, objOf [("c", .str "s")]]), ("d", .null)]) = [] :=
  ⟨rfl, C5_diff_idempotent _ rfl⟩

/-- Claim C8 (confirmed): when both sides are mappings the differ emits a
remove at path slash key for every key present only in current, an add at
path slash key carrying the desired value for every key present only in
desired, includes every operation produced by the recursive call with the
extended path for a key present in both, and on the concrete pair of the
claim the patch is exactly one add of value 1 at /a. -/
theorem C8_mapping_branch_ops :
    (∀ (parent : List String) (os ns : JObj) (k : String),
        keyMemO os k = true → keyMemO ns k = false →
        Op.remove (pathOf parent k) ∈ _diff (.obj os) (.obj ns) parent)
    ∧ (∀ (parent : List String) (os ns : JObj) (k : String) (v : JSON),
        (k, v) ∈ ns.toList → keyMemO os k = false →
        Op.add (pathOf parent k) v ∈ _diff (.obj os) (.obj ns) parent)
    ∧ (∀ (parent : List String) (os ns : JObj) (k : String) (v u : JSON),
        (k, v) ∈ ns.toList → lookupO os k = some u →
        ∀ op ∈ _diff u v (parent ++ [k]), op ∈ _diff (.obj os) (.obj ns) parent)
    ∧ make_patch (objOf []) (objOf [("a", .num 1)]) = [Op.add "/a" (.num 1)] := by
  refine ⟨?_, ?_, ?_, rfl⟩
  · intro parent os ns k hos hns
    rw [diff_obj_unfold]
    exact List.mem_append_left _ (List.mem_map.mpr ⟨k, mem_keysDiff os k ns hos hns, rfl⟩)
  · intro parent os ns k v hmem hos
    rw [diff_obj_unfold]
    refine List.mem_append_right _ ?_
    rw [diffEntries_eq_flatMap]
    refine List.mem_flatMap.mpr ⟨(k, v), hmem, ?_⟩
    simp only [keyMemO_false_lookup os k hos]
    simp
  · intro parent os ns k v u hmem hl op hop
    rw [diff_obj_unfold]
    refine List.mem_append_right _ ?_
    rw [diffEntries_eq_flatMap]
    refine List.mem_flatMap.mpr ⟨(k, v), hmem, ?_⟩
    simp only [hl]
    simpa using hop

/-- Witness for C8: the three membership parts at concrete mappings (a
surplus key b removed, a fresh key c added, and the ops of the recursive
call for the shared key a included). -/
theorem C8_mapping_branch_ops_witness :
    Op.remove (pathOf [] "b") ∈
      _diff (objOf [("a", .num 1), ("b", .num 2)]) (objOf [("a", .num 1)]) []
    ∧ Op.add (pathOf [] "c") (.num 3) ∈ _diff (objOf []) (objOf [("c", .num 3)]) []
    ∧ ∀ op ∈ _diff (.num 1) (.num 2) ([] ++ ["a"]),
        op ∈ _diff (objOf [("a", .num 1)]) (objOf [("a", .num 2)]) [] :=
  ⟨C8_mapping_branch_ops.1 [] (JObj.ofList [("a", .num 1), ("b", .num 2)])
      (JObj.ofList [("a", .num 1)]) "b" (by decide) (by decide),
   C8_mapping_branch_ops.2.1 [] (JObj.ofList []) (JObj.ofList [("c", .num 3)]) "c" (.num 3)
      (by simp [JObj.toList]) (by decide),
   C8_mapping_branch_ops.2.2.1 [] (JObj.ofList [("a", .num 1)]) (JObj.ofList [("a", .num 2)])
      "a" (.num 2) (.num 1) (by simp [JObj.toList]) (by decide)⟩

end AtsVerify
